import Mathlib

set_option maxRecDepth 16384

/-!
Verification development for the multi-provider classification core of the
Ecosystem-scraper repository (file `multi-provider-classifier.js`).

The JavaScript source is shallowly embedded: JS objects produced by
`JSON.parse` become the inductive type `Json`, JS numbers are modelled as
exact rationals, mutable module state (key pools, rotation counters) is
threaded explicitly, and the network is an oracle `Env : Nat -> HttpOutcome`
indexed by the number of `fetch` calls made so far.  Rate limiting
(`waitForRateLimit`) only suspends the caller and touches no state observed
by any property below, so it is not modelled.
-/

namespace EcoScraper

/-- Values produced by JavaScript `JSON.parse`: null, booleans, numbers
(modelled exactly as rationals), strings, arrays and objects.  Object fields
are kept in insertion order with unique keys, as JS objects do. -/
inductive Json where
  | null : Json
  | bool (b : Bool) : Json
  | num (q : ℚ) : Json
  | str (s : String) : Json
  | arr (elems : List Json) : Json
  | obj (fields : List (String × Json)) : Json

/-- Lookup of a field in a JS object's field list (keys are unique, first
match wins). -/
def lookupField : List (String × Json) → String → Option Json
  | [], _ => none
  | (k', v) :: rest, k => if k' = k then some v else lookupField rest k

/-- Decimal reading of a key string (used for array indexing). -/
def strToNatAux : List Char → ℕ → Option ℕ
  | [], acc => some acc
  | c :: rest, acc =>
    if c.isDigit then strToNatAux rest (acc * 10 + (c.toNat - '0'.toNat)) else none

/-- Decimal reading of a key string, `none` when not all digits. -/
def strToNat? (s : String) : Option ℕ :=
  match s.data with
  | [] => none
  | cs => strToNatAux cs 0

/-- Property read `v[k]`: object fields by name, array elements by canonical
decimal index (JS `a["0"]` is `a[0]`, while `a["00"]` is not); on primitives
the result is `undefined`, modelled as `none`.  (JS string character access
`s["0"]` is not modelled; in the embedded code every such access is
immediately followed by a `.message` read, which is `undefined` on strings
anyway.) -/
def jsGet : Json → String → Option Json
  | .obj fields, k => lookupField fields k
  | .arr elems, k =>
    match strToNat? k with
    | some i => if Nat.repr i = k then elems.get? i else none
    | none => none
  | _, _ => none

/-- Property read on a possibly-undefined value: `undefined[k]` stays
undefined (the embedded code only does this where the JS code would have
short-circuited on a falsy check first). -/
def jsGetO : Option Json → String → Option Json
  | none, _ => none
  | some v, k => jsGet v k

/-- Assignment `fields[k] = x` on a JS object's field list: updates the value
in place when the key exists, otherwise appends the new field at the end. -/
def setField : List (String × Json) → String → Json → List (String × Json)
  | [], k, x => [(k, x)]
  | (k', v) :: rest, k, x =>
    if k' = k then (k', x) :: rest else (k', v) :: setField rest k x

/-- Property write `v[k] = x`: only objects are updated (every write in the
embedded code happens on a value already known to be an object). -/
def jsSet : Json → String → Json → Json
  | .obj fields, k, x => .obj (setField fields k x)
  | v, _, _ => v

/-- Truthiness of a JS value: `null`, `false`, `0` and `""` are falsy;
arrays and objects are always truthy. -/
def truthy : Json → Bool
  | .null => false
  | .bool b => b
  | .num q => q ≠ 0
  | .str s => s ≠ ""
  | .arr _ => true
  | .obj _ => true

/-- Truthiness including `undefined` (which is falsy). -/
def truthyO : Option Json → Bool
  | none => false
  | some v => truthy v

/-- JS `a || b` on possibly-undefined values: the first truthy operand. -/
def jsOr (a b : Option Json) : Option Json :=
  if truthyO a then a else b

/-- JS `Math.min` on two (exactly modelled) numbers. -/
def jsMin (a b : ℚ) : ℚ := if a ≤ b then a else b

/-- JS `Math.max` on two (exactly modelled) numbers. -/
def jsMax (a b : ℚ) : ℚ := if a ≤ b then b else a

/-- Whitespace class of JavaScript regular expressions (`\s`) and of
`String.prototype.trim`. -/
def jsWsChar (c : Char) : Bool :=
  c = ' ' || c = '\t' || c = '\n' || c = '\r' || c = '\x0b' || c = '\x0c' ||
  c = '\u00A0' || c = '\u1680' || ('\u2000' ≤ c && c ≤ '\u200A') ||
  c = '\u2028' || c = '\u2029' || c = '\u202F' || c = '\u205F' ||
  c = '\u3000' || c = '\uFEFF'

/-- JS `String.prototype.trim` on a character list. -/
def jsTrim (cs : List Char) : List Char :=
  ((cs.dropWhile jsWsChar).reverse.dropWhile jsWsChar).reverse

/-- JS `String.prototype.trim`. -/
def jsTrimStr (s : String) : String :=
  ⟨jsTrim s.data⟩

/-! ### JSON.parse

A faithful model of JavaScript `JSON.parse`: the JSON grammar with numbers
read exactly (no float rounding), duplicate object keys resolved as JS
property assignment does (first position, last value), and failure — where
`JSON.parse` throws — modelled as `none`.  Recursion is fuelled; the fuel
passed at the top level strictly exceeds the nesting depth any input of that
length can have, so the model agrees with `JSON.parse` on every input. -/

/-- Whitespace accepted between JSON tokens (stricter than `\s`). -/
def jsonWsChar (c : Char) : Bool :=
  c = ' ' || c = '\t' || c = '\n' || c = '\r'

/-- Skip inter-token JSON whitespace. -/
def skipJsonWs (cs : List Char) : List Char :=
  cs.dropWhile jsonWsChar

/-- Numeric value of a decimal digit. -/
def digitVal (c : Char) : ℕ := c.toNat - '0'.toNat

/-- Numeric value of a digit string. -/
def digitsToNat (ds : List Char) : ℕ :=
  ds.foldl (fun a c => a * 10 + digitVal c) 0

/-- Value of a hexadecimal digit, if any. -/
def hexVal (c : Char) : Option ℕ :=
  if '0' ≤ c ∧ c ≤ '9' then some (c.toNat - '0'.toNat)
  else if 'a' ≤ c ∧ c ≤ 'f' then some (c.toNat - 'a'.toNat + 10)
  else if 'A' ≤ c ∧ c ≤ 'F' then some (c.toNat - 'A'.toNat + 10)
  else none

/-- Parse the body of a JSON string literal (after the opening quote), with
the escape sequences of the JSON grammar; raw control characters are
rejected, as `JSON.parse` rejects them. -/
def parseJsonString : List Char → Option (List Char × List Char)
  | [] => none
  | '"' :: rest => some ([], rest)
  | '\\' :: rest =>
    match rest with
    | 'u' :: h1 :: h2 :: h3 :: h4 :: rest' =>
      match hexVal h1, hexVal h2, hexVal h3, hexVal h4 with
      | some a, some b, some c, some d =>
        match parseJsonString rest' with
        | some (s, r) => some (Char.ofNat (((a * 16 + b) * 16 + c) * 16 + d) :: s, r)
        | none => none
      | _, _, _, _ => none
    | e :: rest' =>
      match
        (if e = '"' then some '"'
         else if e = '\\' then some '\\'
         else if e = '/' then some '/'
         else if e = 'b' then some '\x08'
         else if e = 'f' then some '\x0c'
         else if e = 'n' then some '\n'
         else if e = 'r' then some '\r'
         else if e = 't' then some '\t'
         else none) with
      | some c =>
        match parseJsonString rest' with
        | some (s, r) => some (c :: s, r)
        | none => none
      | none => none
    | [] => none
  | c :: rest =>
    if c.toNat < 32 then none
    else
      match parseJsonString rest with
      | some (s, r) => some (c :: s, r)
      | none => none

/-- Parse the optional exponent tail of a JSON number (after the `e`):
optional sign, then at least one digit. -/
def expPart (t : List Char) : Option (Bool × ℕ × List Char) :=
  let (eneg, t5) :=
    match t with
    | '+' :: t4 => (false, t4)
    | '-' :: t4 => (true, t4)
    | _ => (false, t)
  let (ds, r) := t5.span Char.isDigit
  if ds = [] then none else some (eneg, digitsToNat ds, r)

/-- Parse a JSON number (sign, integer part without leading zeros, optional
fraction, optional exponent) into an exact rational
`± mantissa / 10^fracLen × 10^±exp`, built with integer arithmetic. -/
def parseJsonNumber (cs : List Char) : Option (ℚ × List Char) :=
  let (neg, cs1) :=
    match cs with
    | '-' :: t => (true, t)
    | _ => (false, cs)
  match cs1 with
  | [] => none
  | c :: t =>
    if ¬ c.isDigit then none
    else
      let (intDigits, rest1) :=
        if c = '0' then ([c], t)
        else
          let (ds, r) := t.span Char.isDigit
          (c :: ds, r)
      match
        (match rest1 with
         | '.' :: t2 =>
           let (ds, r) := t2.span Char.isDigit
           if ds = [] then none else some (ds, r)
         | _ => some ([], rest1)) with
      | none => none
      | some (fracDigits, rest2) =>
        match
          (match rest2 with
           | 'e' :: t3 => expPart t3
           | 'E' :: t3 => expPart t3
           | _ => some (false, 0, rest2)) with
        | none => none
        | some (eneg, expVal, rest3) =>
          let mant : ℕ :=
            digitsToNat intDigits * 10 ^ fracDigits.length + digitsToNat fracDigits
          let signedMant : ℤ := if neg then -(mant : ℤ) else (mant : ℤ)
          let q : ℚ :=
            if eneg then mkRat signedMant (10 ^ fracDigits.length * 10 ^ expVal)
            else mkRat (signedMant * 10 ^ expVal) (10 ^ fracDigits.length)
          some (q, rest3)

/-- Insert a parsed member into an object's field list the way JS property
assignment does: last value wins, position of the first occurrence kept. -/
def objInsert (fields : List (String × Json)) (k : String) (v : Json) :
    List (String × Json) :=
  setField fields k v

mutual

/-- Parse one JSON value, returning it with the unconsumed input. -/
def parseValue : ℕ → List Char → Option (Json × List Char)
  | 0, _ => none
  | fuel + 1, cs =>
    match skipJsonWs cs with
    | [] => none
    | '{' :: t =>
      (match skipJsonWs t with
       | '}' :: r => some (.obj [], r)
       | _ => parseMembers fuel [] t)
    | '[' :: t =>
      (match skipJsonWs t with
       | ']' :: r => some (.arr [], r)
       | _ => parseElements fuel [] t)
    | '"' :: t =>
      (match parseJsonString t with
       | some (s, r) => some (.str ⟨s⟩, r)
       | none => none)
    | 't' :: 'r' :: 'u' :: 'e' :: r => some (.bool true, r)
    | 'f' :: 'a' :: 'l' :: 's' :: 'e' :: r => some (.bool false, r)
    | 'n' :: 'u' :: 'l' :: 'l' :: r => some (.null, r)
    | cs' =>
      (match parseJsonNumber cs' with
       | some (q, r) => some (.num q, r)
       | none => none)

/-- Parse the members of a JSON object after the opening brace. -/
def parseMembers : ℕ → List (String × Json) → List Char → Option (Json × List Char)
  | 0, _, _ => none
  | fuel + 1, acc, cs =>
    match skipJsonWs cs with
    | '"' :: t =>
      (match parseJsonString t with
       | some (k, r1) =>
         (match skipJsonWs r1 with
          | ':' :: r2 =>
            (match parseValue fuel r2 with
             | some (v, r3) =>
               let acc' := objInsert acc ⟨k⟩ v
               (match skipJsonWs r3 with
                | ',' :: r4 => parseMembers fuel acc' r4
                | '}' :: r4 => some (.obj acc', r4)
                | _ => none)
             | none => none)
          | _ => none)
       | none => none)
    | _ => none

/-- Parse the elements of a JSON array after the opening bracket. -/
def parseElements : ℕ → List Json → List Char → Option (Json × List Char)
  | 0, _, _ => none
  | fuel + 1, acc, cs =>
    match parseValue fuel cs with
    | some (v, r1) =>
      let acc' := acc ++ [v]
      (match skipJsonWs r1 with
       | ',' :: r2 => parseElements fuel acc' r2
       | ']' :: r2 => some (.arr acc', r2)
       | _ => none)
    | none => none

end

/-- Model of JavaScript `JSON.parse`: a full-input parse; `none` where
`JSON.parse` throws (trailing non-whitespace is rejected). -/
def jsonParse (cs : List Char) : Option Json :=
  match parseValue (cs.length + 2) cs with
  | some (v, rest) => if skipJsonWs rest = [] then some v else none
  | none => none

/-! ### The two extraction regexes of `parseAIResponse`

The source first runs `text.match` with the pattern

  three backticks, optional "json", `\s*`, capture of `\{[\s\S]*\}`, `\s*`,
  three backticks

and, when it matches, replaces the text by the capture; it then runs
`text.match(/\{[\s\S]*\}/)` and, when that matches, replaces the text by the
whole match.  Both are modelled below with JavaScript's leftmost-match,
greedy-with-backtracking semantics made explicit. -/

/-- Check that the input starts with whitespace (`\s*`, necessarily the
maximal run, since a backtick is not whitespace) followed by three literal
backticks — the tail of the fenced-block pattern after the capture. -/
def wsThenTicks (cs : List Char) : Bool :=
  match cs.dropWhile jsWsChar with
  | '`' :: '`' :: '`' :: _ => true
  | _ => false

/-- Greedy capture tail: given the characters after the capture's opening
brace, return the longest prefix that ends in a closing brace and is
followed by `\s*` and three backticks (the regex backtracks from the right,
so the rightmost such closing brace wins), with the remaining input. -/
def capAux : List Char → Option (List Char × List Char)
  | [] => none
  | c :: rest =>
    match capAux rest with
    | some (q, r) => some (c :: q, r)
    | none => if c = '}' && wsThenTicks rest then some ([c], rest) else none

/-- Attempt the part of the fenced-block pattern that follows the three
opening backticks and the optional "json" tag: maximal `\s*` run, an opening
brace, then the greedy capture. -/
def fencedBranch (cs : List Char) : Option (List Char) :=
  match cs.dropWhile jsWsChar with
  | '{' :: t =>
    (match capAux t with
     | some (q, _) => some ('{' :: q)
     | none => none)
  | _ => none

/-- Attempt the fenced-block pattern body right after three opening
backticks: the optional "json" tag is greedy, so the branch that consumes it
is tried first. -/
def fencedBody (cs : List Char) : Option (List Char) :=
  match cs with
  | 'j' :: 's' :: 'o' :: 'n' :: t =>
    (match fencedBranch t with
     | some q => some q
     | none => fencedBranch cs)
  | _ => fencedBranch cs

/-- Attempt of the fenced-block pattern at one start position: the position
must open with three backticks, and the body must match. -/
def fencedAt (c : Char) (rest : List Char) : Option (List Char) :=
  if c = '`' then
    match rest with
    | '`' :: '`' :: body => fencedBody body
    | _ => none
  else none

/-- Leftmost match of the fenced-block pattern: try each start position in
order. -/
def fencedSearch : List Char → Option (List Char)
  | [] => none
  | c :: rest =>
    match fencedAt c rest with
    | some q => some q
    | none => fencedSearch rest

/-- Longest prefix of the input ending in a closing brace (the greedy
`[\s\S]*\}` tail of the second regex), with nothing after it required. -/
def upToLastRB : List Char → Option (List Char)
  | [] => none
  | c :: rest =>
    match upToLastRB rest with
    | some q => some (c :: q)
    | none => if c = '}' then some [c] else none

/-- Leftmost match of `\{[\s\S]*\}`: the span from the first opening brace
that has some closing brace after it, through the last closing brace.  (If
the first opening brace has no closing brace after it, no later one does
either, so the whole regex fails.) -/
def objectSpan (cs : List Char) : Option (List Char) :=
  match cs.dropWhile (fun c => c ≠ '{') with
  | '{' :: t =>
    (match upToLastRB t with
     | some q => some ('{' :: q)
     | none => none)
  | _ => none

/-! ### parseAIResponse -/

/-- Field-validation and clamping stage of `parseAIResponse`, mirroring the
guard statements of the source line by line: `isEcosystemOrg` must be a
boolean; `category`, `subcategory` and `role_summary` must be truthy strings
(so non-empty); `confidence` must be a number, and is then clamped into
`[0,1]` by mutating the parsed object.  Any other field of the parsed object
is returned unchanged. -/
def validateAIResult (result : Json) : Option Json :=
  match jsGet result "isEcosystemOrg" with
  | some (.bool _) =>
    (match jsGet result "category" with
     | some (.str c) =>
       if c = "" then none
       else
         match jsGet result "subcategory" with
         | some (.str sc) =>
           if sc = "" then none
           else
             match jsGet result "role_summary" with
             | some (.str rs) =>
               if rs = "" then none
               else
                 match jsGet result "confidence" with
                 | some (.num q) =>
                   some (jsSet result "confidence" (.num (jsMax 0 (jsMin 1 q))))
                 | _ => none
             | _ => none
         | _ => none
     | _ => none)
  | _ => none

/-- Extraction stages of `parseAIResponse` on the trimmed text: substitute
the fenced-block capture when that regex matches, then substitute the
brace-span match when that regex matches. -/
def extractCandidate (cs0 : List Char) : List Char :=
  let cs1 :=
    match fencedSearch cs0 with
    | some b => b
    | none => cs0
  match objectSpan cs1 with
  | some b => b
  | none => cs1

/-- Embedding of `parseAIResponse(responseText)`: trim the text, apply the
two regex extraction stages, run `JSON.parse`, then validate and clamp.
Every JavaScript exception on this path (JSON.parse failure, property access
on a primitive) is caught by the surrounding try/catch and yields null. -/
def parseAIResponse (responseText : String) : Option Json :=
  match jsonParse (extractCandidate (jsTrim responseText.data)) with
  | some result => validateAIResult result
  | none => none

/-- Call of `parseAIResponse` on a JS value that may not be a string (the
adapters pass `message.content`, which a malformed response can make
`undefined` or non-string): `.trim()` on a non-string throws inside the
try/catch and yields null. -/
def parseAIResponseVal : Option Json → Option Json
  | some (.str s) => parseAIResponse s
  | _ => none

/-! ### Credential pools -/

/-- State of one provider's credential pool: the live key array
`keyPools[provider]` together with its round-robin cursor
`keyPointers[provider]`. -/
structure Pool where
  keys : List String
  ptr : ℕ
deriving DecidableEq, Repr

/-- JS `String.prototype.split(",")` on a character list: the comma-separated
fields, in order, empties included. -/
def splitComma : List Char → List (List Char)
  | [] => [[]]
  | ',' :: rest => [] :: splitComma rest
  | c :: rest =>
    match splitComma rest with
    | [] => [[c]]
    | f :: fs => (c :: f) :: fs

/-- Embedding of `loadKeys(envVarName)`: the environment value (absent or
empty gives no keys) split on commas, entries trimmed, empty entries
dropped. -/
def loadKeys (envValue : Option String) : List String :=
  match envValue with
  | none => []
  | some s =>
    if s = "" then []
    else (((splitComma s.data).map jsTrim).map (fun k => (⟨k⟩ : String))).filter
      (fun k => k.length > 0)

/-- Pool freshly populated from a configuration string, cursor at zero. -/
def loadPool (envValue : Option String) : Pool :=
  ⟨loadKeys envValue, 0⟩

/-- Embedding of `getNextKey(provider, keys)`: null on an empty pool;
otherwise the key at the cursor, advancing the cursor modulo the pool
length.  (When the cursor is out of range — which the operations below never
produce from a fresh pool — the JS read is `undefined`, modelled by
`List.get?`.) -/
def getNextKey (p : Pool) : Option String × Pool :=
  if p.keys.length = 0 then (none, p)
  else (p.keys.get? p.ptr, { p with ptr := (p.ptr + 1) % p.keys.length })

/-- Embedding of `removeKey(provider, keyToRemove)`: remove the first
occurrence of the key, if any, and reset the cursor to zero when it is now
out of bounds. -/
def removeKey (p : Pool) (keyToRemove : String) : Pool :=
  match p.keys.indexOf? keyToRemove with
  | none => p
  | some i =>
    let ks := p.keys.eraseIdx i
    { keys := ks, ptr := if p.ptr ≥ ks.length then 0 else p.ptr }

/-! ### Provider rotation -/

/-- The three classification backends of `PROVIDERS`. -/
inductive Provider where
  | cerebras
  | openrouter
  | moonshot
deriving DecidableEq, Repr

/-- Name under which a backend appears in the `provider` field of results. -/
def providerName : Provider → String
  | .cerebras => "cerebras"
  | .openrouter => "openrouter"
  | .moonshot => "moonshot"

/-- Configured model lists of `PROVIDERS`, in order. -/
def providerModels : Provider → List String
  | .cerebras => ["gpt-oss-120b"]
  | .openrouter => ["arcee-ai/trinity-large-preview:free", "google/gemma-3-4b-it:free"]
  | .moonshot => ["kimi-k2-0905-preview", "moonshot-v1-32k"]

/-- Rotation weights `providerRotation.limits`. -/
def rotationLimits : Provider → ℕ
  | .cerebras => 10
  | .openrouter => 10
  | .moonshot => 2

/-- Mutable rotation state `providerRotation`:
current provider and `requestCount`. -/
structure RotationState where
  currentProvider : Provider
  requestCount : ℕ
deriving DecidableEq, Repr

/-- Initial rotation state: cerebras, count zero. -/
def rotationInit : RotationState := ⟨.cerebras, 0⟩

/-- Successor in the fixed cycle cerebras → openrouter → moonshot →
cerebras. -/
def nextInCycle : Provider → Provider
  | .cerebras => .openrouter
  | .openrouter => .moonshot
  | .moonshot => .cerebras

/-- Embedding of `getNextProvider()`: when the current provider's count has
reached its limit, advance to the next provider and reset the count to zero;
return the (possibly new) current provider together with the updated
state. -/
def getNextProvider (s : RotationState) : Provider × RotationState :=
  if s.requestCount ≥ rotationLimits s.currentProvider then
    let nxt := nextInCycle s.currentProvider
    (nxt, ⟨nxt, 0⟩)
  else (s.currentProvider, s)

/-- Embedding of `incrementProviderCount()`. -/
def incrementProviderCount (s : RotationState) : RotationState :=
  { s with requestCount := s.requestCount + 1 }

/-! ### Backend adapters

Every outbound `fetch` is answered by an oracle indexed by the number of
calls made so far; `HttpOutcome.netError` is a thrown network error, and a
response carries its HTTP status and, when `response.json()` succeeds, its
parsed body. -/

/-- Outcome of one `fetch` call. -/
inductive HttpOutcome where
  | netError
  | resp (status : ℕ) (body : Option Json)

/-- Network oracle: the outcome of the n-th `fetch` of the run. -/
def Env : Type := ℕ → HttpOutcome

/-- Whether a status makes `response.ok` true. -/
def respOk (status : ℕ) : Bool :=
  200 ≤ status && status < 300

/-- Shared handling of one chat-completions response body:
`data.choices[0].message` must pass the truthiness guards, and the message
is handed to the per-provider content extraction. -/
def chatMessage (data : Json) : Option Json :=
  let choices := jsGet data "choices"
  let c0 := jsGetO choices "0"
  let message := jsGetO c0 "message"
  if truthyO choices && truthyO c0 && truthyO message then message else none

/-- Result decoration shared by the three adapters:
`\x7b...result, provider: name, model: model\x7d`. -/
def attachProviderModel (result : Json) (name model : String) : Json :=
  jsSet (jsSet result "provider" (.str name)) "model" (.str model)

/-- Model loop of `callCerebras`: for each configured model, draw the next
key (skipping the model when the pool is exhausted), issue the call, evict
the key on HTTP 429, skip on any other failure, and return the parsed result
decorated with provider and model on success.  The `content` handed to the
parser is `data.choices[0].message.content`. -/
def callCerebrasLoop : List String → Pool → ℕ → Env → Option Json × Pool × ℕ
  | [], pool, calls, _ => (none, pool, calls)
  | model :: rest, pool, calls, env =>
    let (key?, pool1) := getNextKey pool
    match key? with
    | none => callCerebrasLoop rest pool1 calls env
    | some key =>
      match env calls with
      | .netError => callCerebrasLoop rest pool1 (calls + 1) env
      | .resp status body =>
        if status = 429 then
          callCerebrasLoop rest (removeKey pool1 key) (calls + 1) env
        else if ¬ respOk status then
          callCerebrasLoop rest pool1 (calls + 1) env
        else
          match body with
          | none => callCerebrasLoop rest pool1 (calls + 1) env
          | some data =>
            match chatMessage data with
            | none => callCerebrasLoop rest pool1 (calls + 1) env
            | some message =>
              match parseAIResponseVal (jsGet message "content") with
              | some result =>
                (some (attachProviderModel result "cerebras" model), pool1, calls + 1)
              | none => callCerebrasLoop rest pool1 (calls + 1) env

/-- Embedding of `callCerebras(orgData)`: null immediately when the pool is
empty, otherwise the model loop.  (`orgData` only shapes the prompt, which
the oracle does not inspect.) -/
def callCerebras (pool : Pool) (calls : ℕ) (env : Env) : Option Json × Pool × ℕ :=
  if pool.keys.length = 0 then (none, pool, calls)
  else callCerebrasLoop (providerModels .cerebras) pool calls env

/-- Content selection of `callOpenRouter`:
`message.content || message.reasoning || ''`. -/
def openRouterContent (message : Json) : Option Json :=
  jsOr (jsOr (jsGet message "content") (jsGet message "reasoning")) (some (.str ""))

/-- Model loop of `callOpenRouter`: as for cerebras, except that the content
is `message.content || message.reasoning || ''` and a falsy content skips
the model before parsing. -/
def callOpenRouterLoop : List String → Pool → ℕ → Env → Option Json × Pool × ℕ
  | [], pool, calls, _ => (none, pool, calls)
  | model :: rest, pool, calls, env =>
    let (key?, pool1) := getNextKey pool
    match key? with
    | none => callOpenRouterLoop rest pool1 calls env
    | some key =>
      match env calls with
      | .netError => callOpenRouterLoop rest pool1 (calls + 1) env
      | .resp status body =>
        if status = 429 then
          callOpenRouterLoop rest (removeKey pool1 key) (calls + 1) env
        else if ¬ respOk status then
          callOpenRouterLoop rest pool1 (calls + 1) env
        else
          match body with
          | none => callOpenRouterLoop rest pool1 (calls + 1) env
          | some data =>
            match chatMessage data with
            | none => callOpenRouterLoop rest pool1 (calls + 1) env
            | some message =>
              if ¬ truthyO (openRouterContent message) then
                callOpenRouterLoop rest pool1 (calls + 1) env
              else
                match parseAIResponseVal (openRouterContent message) with
                | some result =>
                  (some (attachProviderModel result "openrouter" model), pool1, calls + 1)
                | none => callOpenRouterLoop rest pool1 (calls + 1) env

/-- Embedding of `callOpenRouter(orgData)`. -/
def callOpenRouter (pool : Pool) (calls : ℕ) (env : Env) : Option Json × Pool × ℕ :=
  if pool.keys.length = 0 then (none, pool, calls)
  else callOpenRouterLoop (providerModels .openrouter) pool calls env

/-- Model loop of `callMoonshot`: identical in structure to cerebras (the
temperature tweak for kimi models does not affect anything modelled). -/
def callMoonshotLoop : List String → Pool → ℕ → Env → Option Json × Pool × ℕ
  | [], pool, calls, _ => (none, pool, calls)
  | model :: rest, pool, calls, env =>
    let (key?, pool1) := getNextKey pool
    match key? with
    | none => callMoonshotLoop rest pool1 calls env
    | some key =>
      match env calls with
      | .netError => callMoonshotLoop rest pool1 (calls + 1) env
      | .resp status body =>
        if status = 429 then
          callMoonshotLoop rest (removeKey pool1 key) (calls + 1) env
        else if ¬ respOk status then
          callMoonshotLoop rest pool1 (calls + 1) env
        else
          match body with
          | none => callMoonshotLoop rest pool1 (calls + 1) env
          | some data =>
            match chatMessage data with
            | none => callMoonshotLoop rest pool1 (calls + 1) env
            | some message =>
              match parseAIResponseVal (jsGet message "content") with
              | some result =>
                (some (attachProviderModel result "moonshot" model), pool1, calls + 1)
              | none => callMoonshotLoop rest pool1 (calls + 1) env

/-- Embedding of `callMoonshot(orgData)`. -/
def callMoonshot (pool : Pool) (calls : ℕ) (env : Env) : Option Json × Pool × ℕ :=
  if pool.keys.length = 0 then (none, pool, calls)
  else callMoonshotLoop (providerModels .moonshot) pool calls env

/-! ### The orchestrator -/

/-- Input of `classifyWithAI`: the organisation record handed over by the
scraper.  A missing name models both `undefined` and JS `null` (both falsy);
the whole input may itself be null/undefined. -/
structure OrgData where
  name : Option String
  description : Option String
  website : Option String

/-- The structural-validity check `!orgData || !orgData.name` of
`classifyWithAI` (an empty name string is falsy too). -/
def invalidOrg : Option OrgData → Bool
  | none => true
  | some d =>
    match d.name with
    | none => true
    | some s => s = ""

/-- Embedding of `createDefaultClassification(orgData)`: the fixed degraded
default; the argument is ignored by the source, too. -/
def createDefaultClassification (_orgData : Option OrgData) : Json :=
  .obj
    [("isEcosystemOrg", .bool false),
     ("type", .str "other"),
     ("category", .str "GROWTH & INNOVATION"),
     ("subcategory", .str "General Entity"),
     ("role_summary", .str "Organisation pending manual classification and review"),
     ("confidence", .num 0),
     ("provider", .null),
     ("model", .null),
     ("needsReview", .bool true),
     ("degraded", .bool true)]

/-- Process-wide mutable state of the classifier module: the three credential
pools and the rotation state, plus the count of `fetch` calls made so far
(the index into the network oracle). -/
structure ClassifierState where
  cerebrasPool : Pool
  openrouterPool : Pool
  moonshotPool : Pool
  rotation : RotationState
  calls : ℕ

/-- Attempt order built by `classifyWithAI`: the primary provider first,
then the remaining providers in the fixed order cerebras, openrouter,
moonshot. -/
def providerOrder (primaryProvider : Provider) : List Provider :=
  [primaryProvider] ++
    (if primaryProvider ≠ Provider.cerebras then [Provider.cerebras] else []) ++
    (if primaryProvider ≠ Provider.openrouter then [Provider.openrouter] else []) ++
    (if primaryProvider ≠ Provider.moonshot then [Provider.moonshot] else [])

/-- Dispatch through the `providerFunctions` table, threading the module
state. -/
def callProvider (p : Provider) (st : ClassifierState) (env : Env) :
    Option Json × ClassifierState :=
  match p with
  | .cerebras =>
    let (r, pool, calls) := callCerebras st.cerebrasPool st.calls env
    (r, { st with cerebrasPool := pool, calls := calls })
  | .openrouter =>
    let (r, pool, calls) := callOpenRouter st.openrouterPool st.calls env
    (r, { st with openrouterPool := pool, calls := calls })
  | .moonshot =>
    let (r, pool, calls) := callMoonshot st.moonshotPool st.calls env
    (r, { st with moonshotPool := pool, calls := calls })

/-- JS comparison `result.confidence < 0.7` (the value is a number on every
reachable path; any non-number would compare as NaN, hence false). -/
def confBelow (r : Json) (bound : ℚ) : Bool :=
  match jsGet r "confidence" with
  | some (.num q) => decide (q < bound)
  | _ => false

/-- Provider loop of `classifyWithAI`: try each provider in order; on the
first non-null result, advance the rotation counter when the provider was
the primary one, then set `needsReview` from the confidence and mark the
result non-degraded. -/
def tryProviders (primaryProvider : Provider) :
    List Provider → ClassifierState → Env → Option Json × ClassifierState
  | [], st, _ => (none, st)
  | p :: rest, st, env =>
    match callProvider p st env with
    | (some r, st1) =>
      (some (jsSet (jsSet r "needsReview" (.bool (confBelow r (mkRat 7 10))))
          "degraded" (.bool false)),
       if p = primaryProvider then
         { st1 with rotation := incrementProviderCount st1.rotation }
       else st1)
    | (none, st1) => tryProviders primaryProvider rest st1 env

/-- Embedding of `classifyWithAI(orgData, options)`: reject invalid input
immediately (degraded default, or null without graceful degradation), pick
the primary provider from the rotation, try the providers in order, and fall
back to the degraded default (or null) when every provider fails. -/
def classifyWithAI (orgData : Option OrgData) (enableGracefulDegradation : Bool)
    (st : ClassifierState) (env : Env) : Option Json × ClassifierState :=
  if invalidOrg orgData then
    (if enableGracefulDegradation then some (createDefaultClassification orgData)
     else none, st)
  else
    match tryProviders (getNextProvider st.rotation).1
        (providerOrder (getNextProvider st.rotation).1)
        { st with rotation := (getNextProvider st.rotation).2 } env with
    | (some r, st2) => (some r, st2)
    | (none, st2) =>
      (if enableGracefulDegradation then some (createDefaultClassification orgData)
       else none, st2)

/-! ### Spec-side parsers for the refinement claims about `parseAIResponse` -/

/-- Scan for the end of a balanced brace span: depth starts at one (the
opening brace was consumed) and the span ends at the brace that returns the
depth to zero. -/
def balancedAux : ℕ → List Char → Option (List Char)
  | _, [] => none
  | d, c :: rest =>
    if c = '{' then (balancedAux (d + 1) rest).map (c :: ·)
    else if c = '}' then
      if d = 1 then some [c] else (balancedAux (d - 1) rest).map (c :: ·)
    else (balancedAux d rest).map (c :: ·)

/-- First balanced brace span of the text: from the first opening brace to
the brace that balances it. -/
def balancedSpan (cs : List Char) : Option (List Char) :=
  match cs.dropWhile (fun c => c ≠ '{') with
  | '{' :: t =>
    (match balancedAux 1 t with
     | some q => some ('{' :: q)
     | none => none)
  | _ => none

/-- Modelled from the claim's words for the parse strategy: if the text
contains a fenced code block its contents are used, otherwise the first
balanced brace span is located, then a structural parse (with the required
field validation and clamping) is attempted. -/
def parseAIResponseBalanced (responseText : String) : Option Json :=
  let cs0 := jsTrim responseText.data
  let body :=
    match fencedSearch cs0 with
    | some b => b
    | none =>
      match balancedSpan cs0 with
      | some b => b
      | none => cs0
  match jsonParse body with
  | some result => validateAIResult result
  | none => none

/-- Single-substitution extraction: the fenced capture when present,
otherwise the brace span of the trimmed text itself, otherwise the trimmed
text. -/
def stagedBody (cs0 : List Char) : List Char :=
  match fencedSearch cs0 with
  | some b => b
  | none =>
    match objectSpan cs0 with
    | some b => b
    | none => cs0

/-- Staged description matching what the source actually extracts: the
fenced-block capture when that pattern matches, otherwise the greedy span
from the first opening brace to the last closing brace, otherwise the
trimmed text itself; then the structural parse with validation and
clamping.  The code's re-application of the brace-span regex to a fenced
capture is a no-op, proved below. -/
def parseAIResponseStages (responseText : String) : Option Json :=
  match jsonParse (stagedBody (jsTrim responseText.data)) with
  | some result => validateAIResult result
  | none => none

/-! ### Shape predicates -/

/-- Allowed values of the `type` field per the spec's Classification Result
entity. -/
def typeEnum : List String :=
  ["startup", "vc", "incubator", "government", "community", "other"]

/-- Decidable check of the spec's Classification Result shape: every
classification field present with the documented type, `type` drawn from its
enumeration, `confidence` in `[0,1]`, `provider`/`model` string-or-null,
and the two flags boolean.  (Taxonomy membership of `category` and
`subcategory` is deliberately not required here — the spec itself places
that check downstream — which only makes the shape easier to satisfy.) -/
def resultShape (r : Json) : Bool :=
  (match jsGet r "isEcosystemOrg" with | some (.bool _) => true | _ => false) &&
  (match jsGet r "type" with | some (.str t) => typeEnum.contains t | _ => false) &&
  (match jsGet r "category" with | some (.str s) => s ≠ "" | _ => false) &&
  (match jsGet r "subcategory" with | some (.str s) => s ≠ "" | _ => false) &&
  (match jsGet r "role_summary" with | some (.str s) => s ≠ "" | _ => false) &&
  (match jsGet r "confidence" with | some (.num q) => decide (0 ≤ q ∧ q ≤ 1) | _ => false) &&
  (match jsGet r "provider" with | some .null => true | some (.str _) => true | _ => false) &&
  (match jsGet r "model" with | some .null => true | some (.str _) => true | _ => false) &&
  (match jsGet r "needsReview" with | some (.bool _) => true | _ => false) &&
  (match jsGet r "degraded" with | some (.bool _) => true | _ => false)

/-- Fields guaranteed by the parser's validation stage. -/
def validatedFields (r : Json) : Prop :=
  (∃ b, jsGet r "isEcosystemOrg" = some (.bool b)) ∧
  (∃ s, jsGet r "category" = some (.str s) ∧ s ≠ "") ∧
  (∃ s, jsGet r "subcategory" = some (.str s) ∧ s ≠ "") ∧
  (∃ s, jsGet r "role_summary" = some (.str s) ∧ s ≠ "") ∧
  (∃ q, jsGet r "confidence" = some (.num q) ∧ 0 ≤ q ∧ q ≤ 1)

/-- Shape of every non-degraded result of `classifyWithAI`: the validated
classification fields, string provider and model identifiers, a boolean
review flag and `degraded = false`. -/
def liveResult (r : Json) : Prop :=
  validatedFields r ∧
  (∃ p m, jsGet r "provider" = some (.str p) ∧ jsGet r "model" = some (.str m)) ∧
  (∃ b, jsGet r "needsReview" = some (.bool b)) ∧
  jsGet r "degraded" = some (.bool false)

/-! ### Rotation traces and pool traces -/

/-- Rotation-state transition performed by the orchestrator for one
successful primary-backend call: pick the provider, then advance its
counter. -/
def rotStep (s : RotationState) : RotationState :=
  incrementProviderCount (getNextProvider s).2

/-- Primary backend used by the n-th successful primary-backend call of a
run in which every request's primary backend succeeds (zero-indexed). -/
def primarySeq (n : ℕ) : Provider :=
  (getNextProvider (rotStep^[n] rotationInit)).1

/-- Rotation states reachable from the initial state through the
operations the orchestrator performs: a `getNextProvider` call, optionally
followed by the counter increment for a successful primary call. -/
inductive ReachRot : RotationState → Prop where
  | init : ReachRot rotationInit
  | pick {s : RotationState} : ReachRot s → ReachRot (getNextProvider s).2
  | step {s : RotationState} : ReachRot s → ReachRot (rotStep s)

/-- One credential-pool operation of a run: a `getNextKey` draw or a
`removeKey` eviction. -/
inductive PoolOp where
  | next : PoolOp
  | evict (k : String) : PoolOp

/-- Apply one pool operation. -/
def applyOp : PoolOp → Pool → Pool
  | .next, p => (getNextKey p).2
  | .evict k, p => removeKey p k

/-- Apply a sequence of pool operations in order. -/
def runOps : List PoolOp → Pool → Pool
  | [], p => p
  | op :: rest, p => runOps rest (applyOp op p)

/-! ### Concrete fixtures used by counterexamples and witnesses -/

/-- Well-formed classification JSON with a `type` field. -/
def goodText : String :=
  "\x7b\"isEcosystemOrg\":true,\"type\":\"startup\",\"category\":\"FUNDING & FINANCE\",\"subcategory\":\"Venture Capital & Private Equity\",\"role_summary\":\"Funds startups\",\"confidence\":0.9\x7d"

/-- Well-formed classification JSON that omits `type` and carries the
factual field `website` — a payload the validation stage accepts. -/
def extraText : String :=
  "\x7b\"isEcosystemOrg\":true,\"category\":\"FUNDING & FINANCE\",\"subcategory\":\"Venture Capital & Private Equity\",\"role_summary\":\"Funds startups\",\"confidence\":0.5,\"website\":\"https://e.example\"\x7d"

/-- Chat-completions response body whose message content is the given
text. -/
def okBody (content : String) : Json :=
  .obj [("choices", .arr [.obj [("message", .obj [("content", .str content)])]])]

/-- Classifier state with one credential per pool and the initial
rotation. -/
def stOne : ClassifierState :=
  { cerebrasPool := ⟨["ck1"], 0⟩, openrouterPool := ⟨["ok1"], 0⟩,
    moonshotPool := ⟨["mk1"], 0⟩, rotation := rotationInit, calls := 0 }

/-- Classifier state with every credential pool empty. -/
def stEmpty : ClassifierState :=
  { cerebrasPool := ⟨[], 0⟩, openrouterPool := ⟨[], 0⟩,
    moonshotPool := ⟨[], 0⟩, rotation := rotationInit, calls := 0 }

/-- Valid request fixture. -/
def orgAcme : Option OrgData :=
  some ⟨some "Acme Labs", some "A Dubai-based accelerator", some "https://acme.ae"⟩

/-- Oracle that always answers 200 with a well-formed classification. -/
def envGood : Env := fun _ => .resp 200 (some (okBody goodText))

/-- Oracle that always answers 200 with the extra-field classification. -/
def envExtra : Env := fun _ => .resp 200 (some (okBody extraText))

/-- Oracle on which every fetch throws. -/
def envDown : Env := fun _ => .netError

/-- Response whose first balanced brace span is a valid classification but
which carries a trailing closing brace after it. -/
def trailingBraceText : String :=
  "\x7b\"isEcosystemOrg\":true,\"category\":\"A\",\"subcategory\":\"B\",\"role_summary\":\"C\",\"confidence\":1\x7d \x7d"

/-- Classification JSON whose confidence is reported as 1.4. -/
def conf14Text : String :=
  "\x7b\"isEcosystemOrg\":true,\"category\":\"A\",\"subcategory\":\"B\",\"role_summary\":\"C\",\"confidence\":1.4\x7d"

/-- Classification JSON whose confidence is a string. -/
def confStrText : String :=
  "\x7b\"isEcosystemOrg\":true,\"category\":\"A\",\"subcategory\":\"B\",\"role_summary\":\"C\",\"confidence\":\"high\"\x7d"

/-- Parse result of `conf14Text` (confidence clamped to one). -/
def conf14Parsed : Json :=
  .obj [("isEcosystemOrg", .bool true), ("category", .str "A"),
    ("subcategory", .str "B"), ("role_summary", .str "C"),
    ("confidence", .num 1)]

/-! ## Lemmas about objects, get and set -/

theorem lookupField_setField_self (fs : List (String × Json)) (k : String) (x : Json) :
    lookupField (setField fs k x) k = some x := by
  induction fs with
  | nil => simp [setField, lookupField]
  | cons hd tl ih =>
    by_cases h : hd.1 = k
    · simp [setField, h, lookupField]
    · simp [setField, h, lookupField, ih]

theorem lookupField_setField_ne (fs : List (String × Json)) (k k' : String) (x : Json)
    (h : k ≠ k') : lookupField (setField fs k x) k' = lookupField fs k' := by
  induction fs with
  | nil => simp [setField, lookupField, h]
  | cons hd tl ih =>
    by_cases hh : hd.1 = k
    · simp [setField, hh, lookupField, h]
    · simp [setField, hh, lookupField, ih]

theorem jsGet_jsSet_self (fs : List (String × Json)) (k : String) (x : Json) :
    jsGet (jsSet (.obj fs) k x) k = some x := by
  simp [jsSet, jsGet, lookupField_setField_self]

theorem jsGet_jsSet_ne (r : Json) (k k' : String) (x : Json) (h : k ≠ k') :
    jsGet (jsSet r k x) k' = jsGet r k' := by
  cases r <;> simp [jsSet, jsGet, lookupField_setField_ne _ _ _ _ h]

theorem jsSet_obj (fs : List (String × Json)) (k : String) (x : Json) :
    jsSet (.obj fs) k x = .obj (setField fs k x) := rfl

/-- A successful field read under a key that is not a decimal numeral forces
the value to be an object. -/
theorem jsGet_some_obj {r : Json} {k : String} {v : Json}
    (h : jsGet r k = some v) (hk : strToNat? k = none) :
    ∃ fs, r = Json.obj fs := by
  cases r with
  | obj fs => exact ⟨fs, rfl⟩
  | arr es => simp [jsGet, hk] at h
  | null => simp [jsGet] at h
  | bool b => simp [jsGet] at h
  | num q => simp [jsGet] at h
  | str s => simp [jsGet] at h

/-! ## Lemmas about the validation stage -/

theorem jsMax_zero_le (x : ℚ) : 0 ≤ jsMax 0 x := by
  unfold jsMax
  split
  · assumption
  · exact le_refl 0

theorem jsMax_min_le_one (q : ℚ) : jsMax 0 (jsMin 1 q) ≤ 1 := by
  unfold jsMax jsMin
  by_cases h1 : (1 : ℚ) ≤ q
  · simp only [if_pos h1]
    norm_num
  · simp only [if_neg h1]
    by_cases h0 : (0 : ℚ) ≤ q
    · simp only [if_pos h0]
      linarith
    · simp only [if_neg h0]
      norm_num

theorem validateAIResult_fields {r out : Json}
    (h : validateAIResult r = some out) :
    (∃ fs, out = Json.obj fs) ∧ validatedFields out := by
  unfold validateAIResult at h
  repeat' split at h
  all_goals simp only [Option.some.injEq, reduceCtorEq] at h
  rename_i x1 b hb x2 c hc hce x3 sc hs hse x4 rs hr hre x5 q hq
  obtain ⟨fs, rfl⟩ := jsGet_some_obj hb (by decide)
  refine ⟨⟨setField fs "confidence" (.num (jsMax 0 (jsMin 1 q))), by rw [← h]; rfl⟩, ?_⟩
  subst h
  refine ⟨⟨b, ?_⟩, ⟨c, ?_, hce⟩, ⟨sc, ?_, hse⟩, ⟨rs, ?_, hre⟩,
    ⟨jsMax 0 (jsMin 1 q), ?_, ?_, ?_⟩⟩
  · rw [jsGet_jsSet_ne _ _ _ _ (by decide)]; exact hb
  · rw [jsGet_jsSet_ne _ _ _ _ (by decide)]; exact hc
  · rw [jsGet_jsSet_ne _ _ _ _ (by decide)]; exact hs
  · rw [jsGet_jsSet_ne _ _ _ _ (by decide)]; exact hr
  · exact jsGet_jsSet_self fs _ _
  · exact jsMax_zero_le _
  · exact jsMax_min_le_one q

/-- Results of `parseAIResponse` always carry the validated fields and are
objects. -/
theorem parseAIResponse_fields {s : String} {out : Json}
    (h : parseAIResponse s = some out) :
    (∃ fs, out = Json.obj fs) ∧ validatedFields out := by
  unfold parseAIResponse at h
  split at h
  · exact validateAIResult_fields h
  · exact absurd h (by simp)

theorem parseAIResponseVal_fields {o : Option Json} {out : Json}
    (h : parseAIResponseVal o = some out) :
    (∃ fs, out = Json.obj fs) ∧ validatedFields out := by
  unfold parseAIResponseVal at h
  split at h
  · exact parseAIResponse_fields h
  · exact absurd h (by simp)

theorem validatedFields_jsSet {r : Json} (hv : validatedFields r) (k : String)
    (x : Json) (h1 : k ≠ "isEcosystemOrg") (h2 : k ≠ "category")
    (h3 : k ≠ "subcategory") (h4 : k ≠ "role_summary") (h5 : k ≠ "confidence") :
    validatedFields (jsSet r k x) := by
  obtain ⟨⟨b, hb⟩, ⟨c, hc, hc'⟩, ⟨s1, hs1, hs1'⟩, ⟨s2, hs2, hs2'⟩, ⟨q, hq, hq1, hq2⟩⟩ := hv
  refine ⟨⟨b, ?_⟩, ⟨c, ?_, hc'⟩, ⟨s1, ?_, hs1'⟩, ⟨s2, ?_, hs2'⟩, ⟨q, ?_, hq1, hq2⟩⟩
  · rw [jsGet_jsSet_ne _ _ _ _ h1]; exact hb
  · rw [jsGet_jsSet_ne _ _ _ _ h2]; exact hc
  · rw [jsGet_jsSet_ne _ _ _ _ h3]; exact hs1
  · rw [jsGet_jsSet_ne _ _ _ _ h4]; exact hs2
  · rw [jsGet_jsSet_ne _ _ _ _ h5]; exact hq

/-- Decorating a validated parse result with provider and model keeps it an
object with the validated fields and sets the two identifiers. -/
theorem attachProviderModel_props {r0 : Json} {fs : List (String × Json)}
    (hobj : r0 = Json.obj fs) (hv : validatedFields r0) (name m : String) :
    (∃ fs', attachProviderModel r0 name m = Json.obj fs') ∧
    validatedFields (attachProviderModel r0 name m) ∧
    jsGet (attachProviderModel r0 name m) "provider" = some (.str name) ∧
    jsGet (attachProviderModel r0 name m) "model" = some (.str m) := by
  subst hobj
  unfold attachProviderModel
  refine ⟨⟨setField (setField fs "provider" (.str name)) "model" (.str m), rfl⟩, ?_, ?_, ?_⟩
  · exact validatedFields_jsSet
      (validatedFields_jsSet hv "provider" (.str name)
        (by decide) (by decide) (by decide) (by decide) (by decide))
      "model" (.str m) (by decide) (by decide) (by decide) (by decide) (by decide)
  · rw [jsSet_obj, jsGet_jsSet_ne _ _ _ _ (by decide)]
    exact jsGet_jsSet_self fs _ _
  · exact jsGet_jsSet_self _ _ _

/-! ## Adapter lemmas -/

/-- Shape of every non-null result of the cerebras adapter loop. -/
theorem callCerebrasLoop_some {models : List String} {pool : Pool} {calls : ℕ}
    {env : Env} {r : Json} {pool' : Pool} {calls' : ℕ}
    (h : callCerebrasLoop models pool calls env = (some r, pool', calls')) :
    (∃ fs, r = Json.obj fs) ∧ validatedFields r ∧
    jsGet r "provider" = some (.str "cerebras") ∧
    (∃ m, m ∈ models ∧ jsGet r "model" = some (.str m)) := by
  induction models generalizing pool calls with
  | nil => simp [callCerebrasLoop] at h
  | cons model rest ih =>
    unfold callCerebrasLoop at h
    repeat' split at h
    all_goals try exact (let o := ih h; ⟨o.1, o.2.1, o.2.2.1,
      o.2.2.2.imp (fun m hm => ⟨List.mem_cons_of_mem _ hm.1, hm.2⟩)⟩)
    rename_i result heqP
    simp only [Prod.mk.injEq, Option.some.injEq] at h
    obtain ⟨hr, -, -⟩ := h
    subst hr
    obtain ⟨⟨fs0, hobj⟩, hv⟩ := parseAIResponseVal_fields heqP
    obtain ⟨ho, hvv, hp, hm⟩ := attachProviderModel_props hobj hv "cerebras" model
    exact ⟨ho, hvv, hp, model, List.mem_cons_self _ _, hm⟩

theorem callCerebras_some {pool : Pool} {calls : ℕ} {env : Env} {r : Json}
    {pool' : Pool} {calls' : ℕ}
    (h : callCerebras pool calls env = (some r, pool', calls')) :
    (∃ fs, r = Json.obj fs) ∧ validatedFields r ∧
    jsGet r "provider" = some (.str "cerebras") ∧
    (∃ m, jsGet r "model" = some (.str m)) := by
  unfold callCerebras at h
  split at h
  · exact absurd h (by simp)
  · obtain ⟨h1, h2, h3, m, _, h4⟩ := callCerebrasLoop_some h
    exact ⟨h1, h2, h3, m, h4⟩

/-- Shape of every non-null result of the openrouter adapter loop. -/
theorem callOpenRouterLoop_some {models : List String} {pool : Pool} {calls : ℕ}
    {env : Env} {r : Json} {pool' : Pool} {calls' : ℕ}
    (h : callOpenRouterLoop models pool calls env = (some r, pool', calls')) :
    (∃ fs, r = Json.obj fs) ∧ validatedFields r ∧
    jsGet r "provider" = some (.str "openrouter") ∧
    (∃ m, m ∈ models ∧ jsGet r "model" = some (.str m)) := by
  induction models generalizing pool calls with
  | nil => simp [callOpenRouterLoop] at h
  | cons model rest ih =>
    unfold callOpenRouterLoop at h
    repeat' split at h
    all_goals try exact (let o := ih h; ⟨o.1, o.2.1, o.2.2.1,
      o.2.2.2.imp (fun m hm => ⟨List.mem_cons_of_mem _ hm.1, hm.2⟩)⟩)
    rename_i result heqP
    simp only [Prod.mk.injEq, Option.some.injEq] at h
    obtain ⟨hr, -, -⟩ := h
    subst hr
    obtain ⟨⟨fs0, hobj⟩, hv⟩ := parseAIResponseVal_fields heqP
    obtain ⟨ho, hvv, hp, hm⟩ := attachProviderModel_props hobj hv "openrouter" model
    exact ⟨ho, hvv, hp, model, List.mem_cons_self _ _, hm⟩

theorem callOpenRouter_some {pool : Pool} {calls : ℕ} {env : Env} {r : Json}
    {pool' : Pool} {calls' : ℕ}
    (h : callOpenRouter pool calls env = (some r, pool', calls')) :
    (∃ fs, r = Json.obj fs) ∧ validatedFields r ∧
    jsGet r "provider" = some (.str "openrouter") ∧
    (∃ m, jsGet r "model" = some (.str m)) := by
  unfold callOpenRouter at h
  split at h
  · exact absurd h (by simp)
  · obtain ⟨h1, h2, h3, m, _, h4⟩ := callOpenRouterLoop_some h
    exact ⟨h1, h2, h3, m, h4⟩

/-- Shape of every non-null result of the moonshot adapter loop. -/
theorem callMoonshotLoop_some {models : List String} {pool : Pool} {calls : ℕ}
    {env : Env} {r : Json} {pool' : Pool} {calls' : ℕ}
    (h : callMoonshotLoop models pool calls env = (some r, pool', calls')) :
    (∃ fs, r = Json.obj fs) ∧ validatedFields r ∧
    jsGet r "provider" = some (.str "moonshot") ∧
    (∃ m, m ∈ models ∧ jsGet r "model" = some (.str m)) := by
  induction models generalizing pool calls with
  | nil => simp [callMoonshotLoop] at h
  | cons model rest ih =>
    unfold callMoonshotLoop at h
    repeat' split at h
    all_goals try exact (let o := ih h; ⟨o.1, o.2.1, o.2.2.1,
      o.2.2.2.imp (fun m hm => ⟨List.mem_cons_of_mem _ hm.1, hm.2⟩)⟩)
    rename_i result heqP
    simp only [Prod.mk.injEq, Option.some.injEq] at h
    obtain ⟨hr, -, -⟩ := h
    subst hr
    obtain ⟨⟨fs0, hobj⟩, hv⟩ := parseAIResponseVal_fields heqP
    obtain ⟨ho, hvv, hp, hm⟩ := attachProviderModel_props hobj hv "moonshot" model
    exact ⟨ho, hvv, hp, model, List.mem_cons_self _ _, hm⟩

theorem callMoonshot_some {pool : Pool} {calls : ℕ} {env : Env} {r : Json}
    {pool' : Pool} {calls' : ℕ}
    (h : callMoonshot pool calls env = (some r, pool', calls')) :
    (∃ fs, r = Json.obj fs) ∧ validatedFields r ∧
    jsGet r "provider" = some (.str "moonshot") ∧
    (∃ m, jsGet r "model" = some (.str m)) := by
  unfold callMoonshot at h
  split at h
  · exact absurd h (by simp)
  · obtain ⟨h1, h2, h3, m, _, h4⟩ := callMoonshotLoop_some h
    exact ⟨h1, h2, h3, m, h4⟩

/-- Shape of every non-null result of a provider call, tagged with that
provider's name. -/
theorem callProvider_some {p : Provider} {st : ClassifierState} {env : Env}
    {r : Json} {st' : ClassifierState}
    (h : callProvider p st env = (some r, st')) :
    (∃ fs, r = Json.obj fs) ∧ validatedFields r ∧
    jsGet r "provider" = some (.str (providerName p)) ∧
    (∃ m, jsGet r "model" = some (.str m)) := by
  cases p with
  | cerebras =>
    unfold callProvider at h
    simp only [Prod.mk.injEq] at h
    cases hc : callCerebras st.cerebrasPool st.calls env with
    | mk o rest =>
      rw [hc] at h
      cases o with
      | none => simp at h
      | some v =>
        simp only [Option.some.injEq] at h
        obtain ⟨rfl, -⟩ := h
        exact callCerebras_some (by rw [hc])
  | openrouter =>
    unfold callProvider at h
    simp only [Prod.mk.injEq] at h
    cases hc : callOpenRouter st.openrouterPool st.calls env with
    | mk o rest =>
      rw [hc] at h
      cases o with
      | none => simp at h
      | some v =>
        simp only [Option.some.injEq] at h
        obtain ⟨rfl, -⟩ := h
        exact callOpenRouter_some (by rw [hc])
  | moonshot =>
    unfold callProvider at h
    simp only [Prod.mk.injEq] at h
    cases hc : callMoonshot st.moonshotPool st.calls env with
    | mk o rest =>
      rw [hc] at h
      cases o with
      | none => simp at h
      | some v =>
        simp only [Option.some.injEq] at h
        obtain ⟨rfl, -⟩ := h
        exact callMoonshot_some (by rw [hc])

/-! ## Orchestrator lemmas -/

/-- Every non-null output of the provider loop is a live result. -/
theorem tryProviders_some {prim : Provider} {ps : List Provider}
    {st : ClassifierState} {env : Env} {r : Json} {st' : ClassifierState}
    (h : tryProviders prim ps st env = (some r, st')) :
    liveResult r := by
  induction ps generalizing st with
  | nil => simp [tryProviders] at h
  | cons p rest ih =>
    unfold tryProviders at h
    split at h
    · rename_i v st1 heq
      simp only [Prod.mk.injEq, Option.some.injEq] at h
      obtain ⟨hr, -⟩ := h
      subst hr
      obtain ⟨⟨fs, hobj⟩, hv, hp, m, hm⟩ := callProvider_some heq
      subst hobj
      refine ⟨?_, ⟨providerName p, m, ?_, ?_⟩, ⟨confBelow (.obj fs) (mkRat 7 10), ?_⟩, ?_⟩
      · exact validatedFields_jsSet
          (validatedFields_jsSet hv "needsReview" _
            (by decide) (by decide) (by decide) (by decide) (by decide))
          "degraded" _ (by decide) (by decide) (by decide) (by decide) (by decide)
      · rw [jsGet_jsSet_ne _ _ _ _ (by decide), jsGet_jsSet_ne _ _ _ _ (by decide)]
        exact hp
      · rw [jsGet_jsSet_ne _ _ _ _ (by decide), jsGet_jsSet_ne _ _ _ _ (by decide)]
        exact hm
      · rw [jsGet_jsSet_ne _ _ _ _ (by decide), jsGet_jsSet_self]
      · rw [jsSet_obj, jsGet_jsSet_self]
    · exact ih h

/-- Case analysis for every object returned by the orchestrator: it is the
fixed degraded default or a live result. -/
theorem classify_cases {inp : Option OrgData} {g : Bool} {st : ClassifierState}
    {env : Env} {r : Json} (h : (classifyWithAI inp g st env).1 = some r) :
    r = createDefaultClassification inp ∨ liveResult r := by
  unfold classifyWithAI at h
  split at h
  · split at h
    · simp only [Option.some.injEq] at h
      exact Or.inl h.symm
    · exact absurd h (by simp)
  · split at h
    · rename_i st2 heq
      simp only [Option.some.injEq] at h
      subst h
      exact Or.inr (tryProviders_some heq)
    · split at h
      · simp only [Option.some.injEq] at h
        exact Or.inl h.symm
      · exact absurd h (by simp)

/-! ## The extraction stages of parseAIResponse -/

theorem capAux_ends {cs : List Char} :
    ∀ {q r : List Char}, capAux cs = some (q, r) → q.getLast? = some '}' := by
  induction cs with
  | nil => intro q r h; simp [capAux] at h
  | cons c rest ih =>
    intro q r h
    unfold capAux at h
    split at h
    · rename_i q' r' heq
      simp only [Option.some.injEq, Prod.mk.injEq] at h
      obtain ⟨hq, -⟩ := h
      subst hq
      have hq' := ih heq
      cases q' with
      | nil => simp at hq'
      | cons d t => rw [List.getLast?_cons_cons]; exact hq'
    · split at h
      · rename_i hcond
        simp only [Option.some.injEq, Prod.mk.injEq] at h
        obtain ⟨hq, -⟩ := h
        subst hq
        have hc : c = '}' := of_decide_eq_true ((Bool.and_eq_true _ _).mp hcond).1
        simp [hc]
      · exact absurd h (by simp)

theorem upToLastRB_of_ends {q : List Char} (h : q.getLast? = some '}') :
    upToLastRB q = some q := by
  induction q with
  | nil => simp at h
  | cons c rest ih =>
    cases rest with
    | nil =>
      simp only [List.getLast?_singleton, Option.some.injEq] at h
      subst h
      simp [upToLastRB]
    | cons d t =>
      rw [List.getLast?_cons_cons] at h
      unfold upToLastRB
      rw [ih h]

theorem fencedBranch_shape {cs b : List Char} (h : fencedBranch cs = some b) :
    ∃ q, b = '{' :: q ∧ q.getLast? = some '}' := by
  unfold fencedBranch at h
  split at h
  · split at h
    · rename_i heq
      simp only [Option.some.injEq] at h
      exact ⟨_, h.symm, capAux_ends heq⟩
    · exact absurd h (by simp)
  · exact absurd h (by simp)

theorem fencedBody_shape {cs b : List Char} (h : fencedBody cs = some b) :
    ∃ q, b = '{' :: q ∧ q.getLast? = some '}' := by
  unfold fencedBody at h
  split at h
  · split at h
    · rename_i heq
      simp only [Option.some.injEq] at h
      subst h
      exact fencedBranch_shape heq
    · exact fencedBranch_shape h
  · exact fencedBranch_shape h

theorem fencedSearch_shape {cs b : List Char} (h : fencedSearch cs = some b) :
    ∃ q, b = '{' :: q ∧ q.getLast? = some '}' := by
  induction cs with
  | nil => simp [fencedSearch] at h
  | cons c rest ih =>
    unfold fencedSearch at h
    split at h
    · rename_i heq
      simp only [Option.some.injEq] at h
      subst h
      unfold fencedAt at heq
      split at heq
      · split at heq
        · exact fencedBody_shape heq
        · exact absurd heq (by simp)
      · exact absurd heq (by simp)
    · exact ih h

/-- Re-applying the brace-span regex to a fenced capture is the identity:
the capture already starts with an opening brace and ends with a closing
brace. -/
theorem objectSpan_fenced {cs b : List Char} (h : fencedSearch cs = some b) :
    objectSpan b = some b := by
  obtain ⟨q, rfl, hq⟩ := fencedSearch_shape h
  unfold objectSpan
  have hd : ('{' :: q).dropWhile (fun c => c ≠ '{') = '{' :: q := by
    rw [List.dropWhile_cons]
    simp
  rw [hd]
  show (match upToLastRB q with
        | some q' => some ('{' :: q')
        | none => none) = some ('{' :: q)
  rw [upToLastRB_of_ends hq]

theorem parseAIResponse_eq_stages (s : String) :
    parseAIResponse s = parseAIResponseStages s := by
  unfold parseAIResponse parseAIResponseStages
  suffices hsame : extractCandidate (jsTrim s.data) = stagedBody (jsTrim s.data) by
    rw [hsame]
  unfold extractCandidate stagedBody
  cases hf : fencedSearch (jsTrim s.data) with
  | none => simp only [hf]
  | some b => simp only [hf, objectSpan_fenced hf]

/-- C4 counterexample: the code's span stage is the greedy run from the
first opening brace to the last closing brace, not the first balanced span.
On this input the first balanced span holds a fully valid classification,
yet `parseAIResponse` returns null because the greedy span (which includes a
trailing stray closing brace) is not valid JSON; a parser following the
claim's words returns the object. -/
theorem parse_strategy_counterexample :
    parseAIResponse trailingBraceText = none ∧
    parseAIResponseBalanced trailingBraceText = some conf14Parsed ∧
    parseAIResponse trailingBraceText ≠ parseAIResponseBalanced trailingBraceText := by
  refine ⟨rfl, rfl, ?_⟩
  intro hcontra
  rw [show parseAIResponse trailingBraceText = none from rfl,
    show parseAIResponseBalanced trailingBraceText = some conf14Parsed from rfl] at hcontra
  exact absurd hcontra (by simp)

/-- C4 (amended): `parseAIResponse` trims the text, uses the fenced-block
capture when that pattern matches and otherwise the greedy span from the
first opening brace to the last closing brace, then attempts a structural
parse; any missing or mistyped required field yields null, and every
successful parse carries the validated fields — the function is total, so it
never throws. -/
theorem parseAIResponse_strategy :
    (∀ s, parseAIResponse s = parseAIResponseStages s) ∧
    (∀ s r, parseAIResponse s = some r → validatedFields r) :=
  ⟨parseAIResponse_eq_stages, fun _ _ h => (parseAIResponse_fields h).2⟩

/-- Witness for the amended C4 theorem at a concrete response. -/
theorem parseAIResponse_strategy_witness :
    parseAIResponse conf14Text = parseAIResponseStages conf14Text ∧
    validatedFields conf14Parsed :=
  ⟨parseAIResponse_strategy.1 conf14Text,
   parseAIResponse_strategy.2 conf14Text conf14Parsed rfl⟩

/-! ## Rotation lemmas -/

/-- After any `getNextProvider` call the counter is strictly below the
current provider's weight. -/
theorem gnp_lt (s : RotationState) :
    (getNextProvider s).2.requestCount <
      rotationLimits (getNextProvider s).2.currentProvider := by
  unfold getNextProvider
  split
  · cases s.currentProvider <;> decide
  · rename_i h
    show s.requestCount < rotationLimits s.currentProvider
    omega

/-- Counter bound over every reachable rotation state: the counter never
exceeds the current provider's weight. -/
theorem reachRot_le (s : RotationState) (h : ReachRot s) :
    s.requestCount ≤ rotationLimits s.currentProvider := by
  induction h with
  | init => decide
  | pick _ _ => exact le_of_lt (gnp_lt _)
  | step hs _ => exact Nat.succ_le_of_lt (gnp_lt _)

/-- Every iterate of the successful-primary step is reachable. -/
theorem reachRot_iterate : ∀ n, ReachRot (rotStep^[n] rotationInit)
  | 0 => ReachRot.init
  | n + 1 => by
    rw [Function.iterate_succ_apply']
    exact ReachRot.step (reachRot_iterate n)

/-- Names of distinct providers differ. -/
theorem providerName_inj {p q : Provider} (h : providerName p = providerName q) :
    p = q := by
  cases p <;> cases q <;> first | rfl | (exact absurd h (by decide))

/-- A provider call never touches the rotation state. -/
theorem callProvider_rotation (p : Provider) (st : ClassifierState) (env : Env) :
    (callProvider p st env).2.rotation = st.rotation := by
  cases p with
  | cerebras =>
    unfold callProvider
    rcases callCerebras st.cerebrasPool st.calls env with ⟨a, b, c⟩
    rfl
  | openrouter =>
    unfold callProvider
    rcases callOpenRouter st.openrouterPool st.calls env with ⟨a, b, c⟩
    rfl
  | moonshot =>
    unfold callProvider
    rcases callMoonshot st.moonshotPool st.calls env with ⟨a, b, c⟩
    rfl

/-- Rotation behaviour of the provider loop: no result leaves the rotation
untouched; a result whose provider field names the primary backend
increments the counter, any other result leaves it untouched. -/
theorem tryProviders_rotation {prim : Provider} {ps : List Provider}
    {st : ClassifierState} {env : Env} {o : Option Json} {st' : ClassifierState}
    (h : tryProviders prim ps st env = (o, st')) :
    (o = none → st'.rotation = st.rotation) ∧
    (∀ r, o = some r →
      ((jsGet r "provider" = some (.str (providerName prim)) →
         st'.rotation = incrementProviderCount st.rotation) ∧
       (jsGet r "provider" ≠ some (.str (providerName prim)) →
         st'.rotation = st.rotation))) := by
  induction ps generalizing st with
  | nil =>
    simp only [tryProviders, Prod.mk.injEq] at h
    obtain ⟨h1, h2⟩ := h
    subst h1
    subst h2
    exact ⟨fun _ => rfl, fun r hr => absurd hr (by simp)⟩
  | cons p rest ih =>
    unfold tryProviders at h
    split at h
    · rename_i v st1 heq
      simp only [Prod.mk.injEq] at h
      obtain ⟨ho, hst⟩ := h
      subst ho
      subst hst
      have hrot1 : st1.rotation = st.rotation := by
        have := callProvider_rotation p st env
        rw [heq] at this
        exact this
      obtain ⟨-, -, hp, -⟩ := callProvider_some heq
      have hfield : jsGet (jsSet (jsSet v "needsReview"
          (.bool (confBelow v (mkRat 7 10)))) "degraded" (.bool false)) "provider" =
          some (.str (providerName p)) := by
        rw [jsGet_jsSet_ne _ _ _ _ (by decide), jsGet_jsSet_ne _ _ _ _ (by decide)]
        exact hp
      refine ⟨fun hn => absurd hn (by simp), fun r hr => ?_⟩
      simp only [Option.some.injEq] at hr
      subst hr
      by_cases hpp : p = prim
      · subst hpp
        constructor
        · intro _
          rw [if_pos rfl]
          simp only [hrot1]
        · intro hne
          exact absurd hfield hne
      · constructor
        · intro hname
          rw [hfield] at hname
          simp only [Option.some.injEq, Json.str.injEq] at hname
          exact absurd (providerName_inj hname) hpp
        · intro _
          rw [if_neg hpp]
          exact hrot1
    · rename_i st1 heq
      have hrot1 : st1.rotation = st.rotation := by
        have := callProvider_rotation p st env
        rw [heq] at this
        exact this
      obtain ⟨hn, hs⟩ := ih h
      refine ⟨fun ho => (hn ho).trans hrot1, fun r hr => ?_⟩
      refine ⟨fun hf => ?_, fun hf => ((hs r hr).2 hf).trans hrot1⟩
      rw [← hrot1]
      exact (hs r hr).1 hf

/-- Rotation effect of one valid-input orchestrator call that produced a
result. -/
theorem classify_rotation {inp : Option OrgData} {g : Bool} {st : ClassifierState}
    {env : Env} {r : Json} {st' : ClassifierState}
    (hv : invalidOrg inp = false)
    (h : classifyWithAI inp g st env = (some r, st')) :
    (jsGet r "provider" = some (.str (providerName (getNextProvider st.rotation).1)) →
      st'.rotation = rotStep st.rotation) ∧
    (jsGet r "provider" ≠ some (.str (providerName (getNextProvider st.rotation).1)) →
      st'.rotation = (getNextProvider st.rotation).2) := by
  unfold classifyWithAI at h
  simp only [hv, Bool.false_eq_true, if_false] at h
  split at h
  · rename_i r0 st2 heq
    simp only [Prod.mk.injEq, Option.some.injEq] at h
    obtain ⟨h1, h2⟩ := h
    subst h1
    subst h2
    obtain ⟨-, hsome⟩ := tryProviders_rotation heq
    exact hsome _ rfl
  · rename_i st2 heq
    split at h
    · simp only [Prod.mk.injEq, Option.some.injEq] at h
      obtain ⟨h1, h2⟩ := h
      subst h1
      subst h2
      have hnull : jsGet (createDefaultClassification inp) "provider" = some Json.null := rfl
      constructor
      · intro hf
        rw [hnull] at hf
        simp at hf
      · intro _
        exact (tryProviders_rotation heq).1 rfl
    · exact absurd h (by simp)

/-- Rotation effect of one valid-input orchestrator call that produced no
result (graceful degradation disabled, all providers failed). -/
theorem classify_rotation_none {inp : Option OrgData} {g : Bool}
    {st : ClassifierState} {env : Env} {st' : ClassifierState}
    (hv : invalidOrg inp = false)
    (h : classifyWithAI inp g st env = (none, st')) :
    st'.rotation = (getNextProvider st.rotation).2 := by
  unfold classifyWithAI at h
  simp only [hv, Bool.false_eq_true, if_false] at h
  split at h
  · simp at h
  · rename_i st2 heq
    split at h
    · simp at h
    · simp only [Prod.mk.injEq] at h
      obtain ⟨-, h2⟩ := h
      subst h2
      exact (tryProviders_rotation heq).1 rfl

/-- Periodicity of the primary-backend schedule with the configured weights
10, 10, 2: period 22. -/
theorem primarySeq_period (n : ℕ) : primarySeq (n + 22) = primarySeq n := by
  cases n with
  | zero => decide
  | succ m =>
    unfold primarySeq
    have e : m + 1 + 22 = m + 23 := by omega
    rw [e]
    rw [Function.iterate_add_apply rotStep m 23 rotationInit]
    rw [show rotStep^[23] rotationInit = rotStep (rotStep^[22] rotationInit) from
      Function.iterate_succ_apply' rotStep 22 rotationInit]
    rw [show rotStep^[22] rotationInit = (⟨Provider.moonshot, 2⟩ : RotationState) from
      by decide]
    rw [show rotStep (⟨Provider.moonshot, 2⟩ : RotationState) = rotStep rotationInit from
      by decide]
    rw [← Function.iterate_succ_apply rotStep m rotationInit]

/-- C5: the primary-backend schedule is periodic with period 22 under the
weights 10/10/2 (so the 23rd successful primary-backend call lands on the
same backend, cerebras, as the first); the rotation counter never exceeds
the current backend's weight on any reachable state; and the counter is
advanced exactly when the produced result's provider is the primary one —
fallback successes and total failures leave the post-pick rotation state
unchanged. -/
theorem rotation_schedule :
    (∀ n, primarySeq (n + 22) = primarySeq n) ∧
    primarySeq 22 = primarySeq 0 ∧
    primarySeq 0 = Provider.cerebras ∧
    (∀ s, ReachRot s → s.requestCount ≤ rotationLimits s.currentProvider) ∧
    (∀ (inp : Option OrgData) (g : Bool) (st : ClassifierState) (env : Env)
        (r : Json) (st' : ClassifierState), invalidOrg inp = false →
      classifyWithAI inp g st env = (some r, st') →
      ((jsGet r "provider" = some (.str (providerName (getNextProvider st.rotation).1)) →
         st'.rotation = rotStep st.rotation) ∧
       (jsGet r "provider" ≠ some (.str (providerName (getNextProvider st.rotation).1)) →
         st'.rotation = (getNextProvider st.rotation).2))) ∧
    (∀ (inp : Option OrgData) (g : Bool) (st : ClassifierState) (env : Env)
        (st' : ClassifierState), invalidOrg inp = false →
      classifyWithAI inp g st env = (none, st') →
      st'.rotation = (getNextProvider st.rotation).2) :=
  ⟨primarySeq_period, primarySeq_period 0, rfl, reachRot_le,
   fun _ _ _ _ _ _ hv h => classify_rotation hv h,
   fun _ _ _ _ _ hv h => classify_rotation_none hv h⟩

/-- Witness for the C5 theorem: the counter bound discharged at the initial
state. -/
theorem rotation_schedule_witness :
    ReachRot rotationInit ∧
    rotationInit.requestCount ≤ rotationLimits rotationInit.currentProvider :=
  ⟨ReachRot.init, rotation_schedule.2.2.2.1 rotationInit ReachRot.init⟩

/-- C6 counterexample: after the tenth successful primary call (ten
`getNextProvider`-plus-increment operations from the initial state) the
rotation state is cerebras with counter 10, which is not strictly below the
cerebras weight 10 — the reset happens only at the next `getNextProvider`
call, not at the moment the counter reaches the limit. -/
theorem rotation_invariant_counterexample :
    rotStep^[10] rotationInit = ⟨Provider.cerebras, 10⟩ ∧
    ReachRot ⟨Provider.cerebras, 10⟩ ∧
    ¬((10 : ℕ) < rotationLimits Provider.cerebras) := by
  refine ⟨by decide, ?_, by decide⟩
  have h := reachRot_iterate 10
  rwa [show rotStep^[10] rotationInit = (⟨Provider.cerebras, 10⟩ : RotationState) from
    by decide] at h

/-- C6 (amended): over all reachable rotation states the counter is at most
the current backend's weight, with strict inequality restored by every
`getNextProvider` call; when the counter has reached the limit, the next
`getNextProvider` call advances the backend along the fixed cycle and resets
the counter to zero. -/
theorem rotation_invariant :
    (∀ s, ReachRot s → s.requestCount ≤ rotationLimits s.currentProvider) ∧
    (∀ s, (getNextProvider s).2.requestCount <
        rotationLimits (getNextProvider s).2.currentProvider) ∧
    (∀ s, s.requestCount ≥ rotationLimits s.currentProvider →
      getNextProvider s =
        (nextInCycle s.currentProvider, ⟨nextInCycle s.currentProvider, 0⟩)) :=
  ⟨reachRot_le, gnp_lt, fun s h => by unfold getNextProvider; rw [if_pos h]⟩

/-- Witness for the amended C6 theorem at concrete states. -/
theorem rotation_invariant_witness :
    ReachRot rotationInit ∧
    rotationInit.requestCount ≤ rotationLimits rotationInit.currentProvider ∧
    (⟨Provider.cerebras, 10⟩ : RotationState).requestCount ≥
      rotationLimits Provider.cerebras ∧
    getNextProvider ⟨Provider.cerebras, 10⟩ =
      (Provider.openrouter, ⟨Provider.openrouter, 0⟩) :=
  ⟨ReachRot.init, rotation_invariant.1 rotationInit ReachRot.init, by decide,
   rotation_invariant.2.2 ⟨Provider.cerebras, 10⟩ (by decide)⟩

/-! ## Credential-pool lemmas -/

/-- Drawing a key never changes the key list. -/
theorem getNextKey_keys (p : Pool) : ((getNextKey p).2).keys = p.keys := by
  unfold getNextKey
  split <;> rfl

/-- A drawn key is a member of the pool. -/
theorem getNextKey_mem {p : Pool} {k : String} (h : (getNextKey p).1 = some k) :
    k ∈ p.keys := by
  unfold getNextKey at h
  split at h
  · simp at h
  · exact List.get?_mem h

/-- Eviction removes exactly the first occurrence of the key. -/
theorem removeKey_keys (p : Pool) (k : String) :
    (removeKey p k).keys = p.keys.erase k := by
  unfold removeKey
  cases hidx : p.keys.indexOf? k with
  | none =>
    simp only [hidx]
    have hnm : k ∉ p.keys := by
      intro hk
      have := List.indexOf?_eq_none_iff.mp hidx k hk
      simp at this
    rw [List.erase_of_not_mem hnm]
  | some i =>
    simp only [hidx]
    have hi : p.keys.indexOf k = i := by
      rw [List.indexOf_eq_indexOf?, hidx]
    rw [← hi, List.eraseIdx_indexOf_eq_erase]

/-- Evicting an absent key is a no-op on the whole pool state. -/
theorem removeKey_of_not_mem {p : Pool} {k : String} (h : k ∉ p.keys) :
    removeKey p k = p := by
  have hnone : p.keys.indexOf? k = none :=
    List.indexOf?_eq_none_iff.mpr (fun x hx hbeq => h ((eq_of_beq hbeq) ▸ hx))
  unfold removeKey
  rw [hnone]

/-- One pool operation can only shrink the key list (as a set). -/
theorem applyOp_subset (op : PoolOp) (p : Pool) : (applyOp op p).keys ⊆ p.keys := by
  cases op with
  | next =>
    show ((getNextKey p).2).keys ⊆ p.keys
    rw [getNextKey_keys]
    exact fun x hx => hx
  | evict k =>
    show (removeKey p k).keys ⊆ p.keys
    rw [removeKey_keys]
    exact List.erase_subset k p.keys

/-- A run of pool operations can only shrink the key list (as a set). -/
theorem runOps_subset (ops : List PoolOp) (p : Pool) :
    (runOps ops p).keys ⊆ p.keys := by
  induction ops generalizing p with
  | nil => exact fun x hx => hx
  | cons op rest ih =>
    exact fun x hx => applyOp_subset op p (ih (applyOp op p) hx)

/-- One pool operation never increases the pool length. -/
theorem applyOp_length (op : PoolOp) (p : Pool) :
    (applyOp op p).keys.length ≤ p.keys.length := by
  cases op with
  | next =>
    show ((getNextKey p).2).keys.length ≤ p.keys.length
    rw [getNextKey_keys]
  | evict k =>
    show (removeKey p k).keys.length ≤ p.keys.length
    rw [removeKey_keys]
    exact List.length_erase_le k p.keys

/-- A run of pool operations never increases the pool length. -/
theorem runOps_length (ops : List PoolOp) (p : Pool) :
    (runOps ops p).keys.length ≤ p.keys.length := by
  induction ops generalizing p with
  | nil => exact le_refl _
  | cons op rest ih => exact le_trans (ih (applyOp op p)) (applyOp_length op p)

/-- C7 counterexample: `loadKeys` does not deduplicate, so a configuration
with a repeated credential breaks the claim: after evicting "a" from the
pool loaded from "a,b,a", the second draw returns "a" again, and a second
eviction of "a" changes the pool further. -/
theorem eviction_counterexample :
    loadKeys (some "a,b,a") = ["a", "b", "a"] ∧
    (getNextKey ((getNextKey (removeKey (loadPool (some "a,b,a")) "a")).2)).1 =
      some "a" ∧
    removeKey (removeKey (loadPool (some "a,b,a")) "a") "a" ≠
      removeKey (loadPool (some "a,b,a")) "a" := by
  exact ⟨by decide, by decide, by decide⟩

/-- C7 (amended): for every credential pool loaded from a configuration
string whose entries are pairwise distinct, once a credential is evicted no
later draw of any interleaving of draws and evictions returns it, evicting
it a second time has no further effect, and no operation ever increases the
pool length (the length bound needs no distinctness at all). -/
theorem eviction_monotone (cfg : Option String) (k : String) (ops : List PoolOp)
    (hnd : (loadKeys cfg).Nodup) :
    (getNextKey (runOps ops (removeKey (loadPool cfg) k))).1 ≠ some k ∧
    removeKey (runOps ops (removeKey (loadPool cfg) k)) k =
      runOps ops (removeKey (loadPool cfg) k) ∧
    (∀ p : Pool, (runOps ops p).keys.length ≤ p.keys.length) := by
  have hmem : k ∉ (runOps ops (removeKey (loadPool cfg) k)).keys := by
    intro hk
    have h2 := runOps_subset ops _ hk
    rw [removeKey_keys] at h2
    exact ((List.Nodup.mem_erase_iff hnd).mp h2).1 rfl
  refine ⟨?_, removeKey_of_not_mem hmem, fun p => runOps_length ops p⟩
  intro hk
  exact hmem (getNextKey_mem hk)

/-- Witness for the amended C7 theorem at a concrete two-key pool. -/
theorem eviction_monotone_witness :
    (loadKeys (some "a,b")).Nodup ∧
    (getNextKey (runOps [PoolOp.next] (removeKey (loadPool (some "a,b")) "a"))).1 ≠
      some "a" :=
  ⟨by decide, (eviction_monotone (some "a,b") "a" [PoolOp.next] (by decide)).1⟩

/-! ## Orchestrator claim theorems -/

/-- A provider call on a state whose pools are all empty returns null and
leaves the state untouched. -/
theorem callProvider_none_of_empty {p : Provider} {st : ClassifierState} {env : Env}
    (h1 : st.cerebrasPool.keys = []) (h2 : st.openrouterPool.keys = [])
    (h3 : st.moonshotPool.keys = []) : callProvider p st env = (none, st) := by
  cases p with
  | cerebras =>
    show (let x := callCerebras st.cerebrasPool st.calls env
          (x.1, { st with cerebrasPool := x.2.1, calls := x.2.2 })) = (none, st)
    rw [show callCerebras st.cerebrasPool st.calls env =
      (none, st.cerebrasPool, st.calls) from by unfold callCerebras; rw [h1]; rfl]
  | openrouter =>
    show (let x := callOpenRouter st.openrouterPool st.calls env
          (x.1, { st with openrouterPool := x.2.1, calls := x.2.2 })) = (none, st)
    rw [show callOpenRouter st.openrouterPool st.calls env =
      (none, st.openrouterPool, st.calls) from by unfold callOpenRouter; rw [h2]; rfl]
  | moonshot =>
    show (let x := callMoonshot st.moonshotPool st.calls env
          (x.1, { st with moonshotPool := x.2.1, calls := x.2.2 })) = (none, st)
    rw [show callMoonshot st.moonshotPool st.calls env =
      (none, st.moonshotPool, st.calls) from by unfold callMoonshot; rw [h3]; rfl]

/-- The provider loop on a state whose pools are all empty returns null and
leaves the state untouched. -/
theorem tryProviders_none_of_empty {prim : Provider} {ps : List Provider}
    {st : ClassifierState} {env : Env}
    (h1 : st.cerebrasPool.keys = []) (h2 : st.openrouterPool.keys = [])
    (h3 : st.moonshotPool.keys = []) : tryProviders prim ps st env = (none, st) := by
  induction ps with
  | nil => rfl
  | cons p rest ih =>
    unfold tryProviders
    rw [callProvider_none_of_empty h1 h2 h3]
    exact ih

/-- C2: whenever every credential pool is empty at the start of the request,
`classifyWithAI` (with graceful degradation) returns exactly the fixed
degraded default — the same object, with these exact ten fields and values,
for every request and every network oracle. -/
theorem classify_empty_pools (inp : Option OrgData) (st : ClassifierState) (env : Env)
    (h1 : st.cerebrasPool.keys = []) (h2 : st.openrouterPool.keys = [])
    (h3 : st.moonshotPool.keys = []) :
    (classifyWithAI inp true st env).1 =
      some (Json.obj
        [("isEcosystemOrg", .bool false),
         ("type", .str "other"),
         ("category", .str "GROWTH & INNOVATION"),
         ("subcategory", .str "General Entity"),
         ("role_summary", .str "Organisation pending manual classification and review"),
         ("confidence", .num 0),
         ("provider", .null),
         ("model", .null),
         ("needsReview", .bool true),
         ("degraded", .bool true)]) := by
  unfold classifyWithAI
  cases hi : invalidOrg inp with
  | true => rfl
  | false =>
    simp only [hi, Bool.false_eq_true, if_false]
    rw [@tryProviders_none_of_empty _ _
      { st with rotation := (getNextProvider st.rotation).2 } _ h1 h2 h3]
    rfl

/-- Witness for the C2 theorem: a concrete valid request against empty
pools. -/
theorem classify_empty_pools_witness :
    (classifyWithAI orgAcme true stEmpty envGood).1 =
      some (Json.obj
        [("isEcosystemOrg", .bool false),
         ("type", .str "other"),
         ("category", .str "GROWTH & INNOVATION"),
         ("subcategory", .str "General Entity"),
         ("role_summary", .str "Organisation pending manual classification and review"),
         ("confidence", .num 0),
         ("provider", .null),
         ("model", .null),
         ("needsReview", .bool true),
         ("degraded", .bool true)]) :=
  classify_empty_pools orgAcme stEmpty envGood rfl rfl rfl

/-- C1 counterexample: a live (non-degraded) run whose backend payload omits
the `type` field.  The adapter validation never checks `type`, so the
returned object has no `type` field at all and fails the spec's
Classification Result shape, refuting the claim that every returned object
matches that shape. -/
theorem classify_shape_counterexample :
    ((classifyWithAI orgAcme true stOne envExtra).1.map resultShape) = some false ∧
    ((classifyWithAI orgAcme true stOne envExtra).1.map (fun r => jsGet r "type")) =
      some none ∧
    ((classifyWithAI orgAcme true stOne envExtra).1.map (fun r => jsGet r "degraded")) =
      some (some (.bool false)) := by
  exact ⟨by decide, rfl, rfl⟩

/-- C1 (amended): with graceful degradation enabled, `classifyWithAI` always
returns a non-null object and never throws; the object is either the fixed
degraded default (always so for a null input or a missing/empty name) or a
live result carrying the validated classification fields, string provider
and model identifiers, a boolean review flag and `degraded = false` — but
the `type` field is not validated and is only present when the backend
supplied it. -/
theorem classify_graceful_total (inp : Option OrgData) (st : ClassifierState)
    (env : Env) :
    ∃ r, (classifyWithAI inp true st env).1 = some r ∧
      (r = createDefaultClassification inp ∨ liveResult r) ∧
      (invalidOrg inp = true → r = createDefaultClassification inp) := by
  cases hi : invalidOrg inp with
  | true =>
    refine ⟨createDefaultClassification inp, ?_, Or.inl rfl, fun _ => rfl⟩
    unfold classifyWithAI
    rw [hi]
    rfl
  | false =>
    rcases hout : tryProviders (getNextProvider st.rotation).1
        (providerOrder (getNextProvider st.rotation).1)
        { st with rotation := (getNextProvider st.rotation).2 } env with ⟨o, st2⟩
    cases o with
    | some v =>
      refine ⟨v, ?_, Or.inr (tryProviders_some hout),
        fun hinv => absurd hinv (by simp)⟩
      unfold classifyWithAI
      simp only [hi, Bool.false_eq_true, if_false]
      rw [hout]
    | none =>
      refine ⟨createDefaultClassification inp, ?_, Or.inl rfl, fun _ => rfl⟩
      unfold classifyWithAI
      simp only [hi, Bool.false_eq_true, if_false]
      rw [hout]
      rfl

/-- Witness for the amended C1 theorem at a concrete invalid input. -/
theorem classify_graceful_total_witness :
    ∃ r, (classifyWithAI none true stEmpty envDown).1 = some r ∧
      (r = createDefaultClassification none ∨ liveResult r) ∧
      (invalidOrg none = true → r = createDefaultClassification none) :=
  classify_graceful_total none stEmpty envDown

/-- C3: for every object returned by `classifyWithAI`, `degraded = true`
holds exactly when both `provider` and `model` are null, and every
non-degraded result carries string provider and model identifiers. -/
theorem degraded_iff_null_ids {inp : Option OrgData} {g : Bool}
    {st : ClassifierState} {env : Env} {r : Json}
    (h : (classifyWithAI inp g st env).1 = some r) :
    ((jsGet r "degraded" = some (.bool true)) ↔
      (jsGet r "provider" = some .null ∧ jsGet r "model" = some .null)) ∧
    (jsGet r "degraded" = some (.bool false) →
      ∃ p m, jsGet r "provider" = some (.str p) ∧ jsGet r "model" = some (.str m)) := by
  rcases classify_cases h with rfl | hl
  · refine ⟨⟨fun _ => ⟨rfl, rfl⟩, fun _ => rfl⟩, fun hd => ?_⟩
    rw [show jsGet (createDefaultClassification inp) "degraded" =
      some (.bool true) from rfl] at hd
    simp at hd
  · obtain ⟨-, ⟨p, m, hp, hm⟩, -, hd⟩ := hl
    constructor
    · constructor
      · intro hdt
        rw [hd] at hdt
        simp at hdt
      · rintro ⟨hp', -⟩
        rw [hp] at hp'
        simp at hp'
    · intro _
      exact ⟨p, m, hp, hm⟩

/-- Witness for the C3 theorem at a concrete degraded run. -/
theorem degraded_iff_null_ids_witness :
    ((jsGet (createDefaultClassification none) "degraded" = some (.bool true)) ↔
      (jsGet (createDefaultClassification none) "provider" = some .null ∧
       jsGet (createDefaultClassification none) "model" = some .null)) ∧
    (jsGet (createDefaultClassification none) "degraded" = some (.bool false) →
      ∃ p m, jsGet (createDefaultClassification none) "provider" = some (.str p) ∧
        jsGet (createDefaultClassification none) "model" = some (.str m)) :=
  @degraded_iff_null_ids none true stEmpty envDown _ rfl

/-- C8: evaluation of the code at the failing input.  A backend payload that
carries the factual field `website` alongside the required classification
fields is accepted by the parser, and the spread in the adapter copies every
payload key into the returned object: the non-degraded result contains
`website`, contradicting the restriction to the classification-field set. -/
theorem classify_factual_passthrough :
    ((classifyWithAI orgAcme true stOne envExtra).1.map (fun r => jsGet r "website")) =
      some (some (.str "https://e.example")) ∧
    ((classifyWithAI orgAcme true stOne envExtra).1.map (fun r => jsGet r "provider")) =
      some (some (.str "cerebras")) :=
  ⟨rfl, rfl⟩

/-- C9: the confidence of every object `classifyWithAI` returns lies in
`[0,1]`; a backend-reported confidence of 1.4 is clamped to 1 rather than
rejected; a non-numeric confidence makes the parse return null. -/
theorem classify_confidence_range :
    (∀ (inp : Option OrgData) (g : Bool) (st : ClassifierState) (env : Env) (r : Json),
      (classifyWithAI inp g st env).1 = some r →
      ∃ q, jsGet r "confidence" = some (.num q) ∧ 0 ≤ q ∧ q ≤ 1) ∧
    ((parseAIResponse conf14Text).map (fun r => jsGet r "confidence") =
      some (some (.num 1))) ∧
    parseAIResponse confStrText = none := by
  refine ⟨?_, rfl, rfl⟩
  intro inp g st env r h
  rcases classify_cases h with rfl | hl
  · exact ⟨0, rfl, le_refl 0, zero_le_one⟩
  · obtain ⟨⟨-, -, -, -, q, hq, h0, h1⟩, -, -, -⟩ := hl
    exact ⟨q, hq, h0, h1⟩

/-- Witness for the C9 theorem at a concrete degraded run. -/
theorem classify_confidence_range_witness :
    ∃ q, jsGet (createDefaultClassification none) "confidence" = some (.num q) ∧
      0 ≤ q ∧ q ≤ 1 :=
  classify_confidence_range.1 none true stEmpty envDown
    (createDefaultClassification none) rfl

/-- C10: with graceful degradation disabled, `classifyWithAI` returns null
exactly in the two degradation situations: a structurally invalid input
(null, or a missing/empty name), or every provider attempt returning null.
The never-null guarantee therefore holds only under the default options. -/
theorem strict_mode_null_iff (inp : Option OrgData) (st : ClassifierState)
    (env : Env) :
    (classifyWithAI inp false st env).1 = none ↔
      (invalidOrg inp = true ∨
        (invalidOrg inp = false ∧
          (tryProviders (getNextProvider st.rotation).1
            (providerOrder (getNextProvider st.rotation).1)
            { st with rotation := (getNextProvider st.rotation).2 } env).1 = none)) := by
  cases hi : invalidOrg inp with
  | true =>
    constructor
    · intro _
      exact Or.inl rfl
    · intro _
      unfold classifyWithAI
      rw [hi]
      rfl
  | false =>
    rcases hout : tryProviders (getNextProvider st.rotation).1
        (providerOrder (getNextProvider st.rotation).1)
        { st with rotation := (getNextProvider st.rotation).2 } env with ⟨o, st2⟩
    cases o with
    | some v =>
      constructor
      · intro hnone
        unfold classifyWithAI at hnone
        simp only [hi, Bool.false_eq_true, if_false] at hnone
        rw [hout] at hnone
        simp at hnone
      · intro hcase
        rcases hcase with hinv | ⟨-, hnone⟩
        · exact absurd hinv (by simp)
        · simp at hnone
    | none =>
      constructor
      · intro _
        exact Or.inr ⟨rfl, rfl⟩
      · intro _
        unfold classifyWithAI
        simp only [hi, Bool.false_eq_true, if_false]
        rw [hout]

/-- Witness for the C10 theorem: a concrete null return in strict mode. -/
theorem strict_mode_null_witness :
    (classifyWithAI none false stEmpty envDown).1 = none :=
  (strict_mode_null_iff none stEmpty envDown).mpr (Or.inl rfl)

end EcoScraper
